import Mathlib

/-!
Verification of the request-execution layer of the `nodejs-firestore` client
library, shallowly embedded from `src/index.js`.

Promises are modelled as `Except`-valued computations over explicit
environments that describe the outcome of every underlying RPC attempt;
the event-driven stream-initialization code is modelled as a state machine
over traces of transport events.  Every definition follows the JavaScript
source; line numbers in doc comments refer to `src/index.js`.
-/

namespace NodeFirestore

/-- `MAX_REQUEST_RETRIES` (src/index.js:117): the maximum number of times to
retry idempotent requests. -/
def MAX_REQUEST_RETRIES : Nat := 5

/-- `GRPC_UNAVAILABLE` (src/index.js:133): the gRPC error code for
`UNAVAILABLE`. -/
def GRPC_UNAVAILABLE : Int := 14

/-- An RPC error as observed by `_retry`: a JavaScript error object that may
or may not carry a numeric `code` property (`is.defined(err.code)` is `none`
versus `some c`). -/
structure RpcError where
  code : Option Int
deriving DecidableEq

/-- Outcome of a single attempt of the retried function `func`. -/
inductive Outcome (α : Type) where
  | ok (v : α)
  | fail (e : RpcError)
deriving DecidableEq

/-- JavaScript `x || d` applied to an optional number (`undefined` and `0`
are both falsy). -/
def jsOr (x : Option Nat) (d : Nat) : Nat :=
  match x with
  | none => d
  | some 0 => d
  | some v => v

/-- `Firestore.prototype._retry` (src/index.js:906-940).

`func i` is the outcome of the `i`-th invocation of the retried function
(`idx` is the index of the next invocation; the executors start at `0`).
`attemptsRemaining` and `delayMs` are the parameters of the same name; the
function first computes `currentDelay = delayMs || 0` and
`nextDelay = delayMs || 100`, decrements `attemptsRemaining`, waits
`currentDelay`, then runs `func`.  A failure whose error carries a defined
code other than `GRPC_UNAVAILABLE` rejects immediately; otherwise the call
is retried with `nextDelay` while the decremented budget is non-zero.

The result is the settled value of the returned promise together with the
list of delays waited before each attempt, so the length of that list is
the number of attempts performed.  (Callers always pass a budget of at
least 1; for budget `0` this model performs a single attempt.) -/
def retryRun (func : Nat → Outcome α) (attemptsRemaining idx : Nat)
    (delayMs : Option Nat) : Except RpcError α × List Nat :=
  let currentDelay := jsOr delayMs 0
  let nextDelay := jsOr delayMs 100
  match func idx with
  | Outcome.ok v => (Except.ok v, [currentDelay])
  | Outcome.fail e =>
    if e.code.isSome ∧ e.code ≠ some GRPC_UNAVAILABLE then
      (Except.error e, [currentDelay])
    else if attemptsRemaining ≤ 1 then
      (Except.error e, [currentDelay])
    else
      let rest := retryRun func (attemptsRemaining - 1) (idx + 1) (some nextDelay)
      (rest.1, currentDelay :: rest.2)
termination_by attemptsRemaining
decreasing_by omega

/-- The attempt budget computed by `Firestore.prototype.request`
(src/index.js:1066): `allowRetries ? MAX_REQUEST_RETRIES : 1`. -/
def requestAttempts (allowRetries : Bool) : Nat :=
  if allowRetries then MAX_REQUEST_RETRIES else 1

/-- `Firestore.prototype.request` (src/index.js:1065-1091), restricted to the
retry behavior: the unary RPC attempt outcomes are given by `func`, and
`_retry` is invoked with the computed budget and no initial delay. -/
def request (allowRetries : Bool) (func : Nat → Outcome α) :
    Except RpcError α × List Nat :=
  retryRun func (requestAttempts allowRetries) 0 none

/-- An error is transient for `_retry` when it carries no defined code or
carries the `UNAVAILABLE` code (src/index.js:923). -/
def transientError (e : RpcError) : Prop :=
  e.code = none ∨ e.code = some GRPC_UNAVAILABLE

/-- Helper: a run of `k` transient failures followed by a success within the
budget resolves with the success value after exactly `k + 1` attempts. -/
theorem retryRun_transient_then_ok (func : Nat → Outcome α) (v : α) :
    ∀ (k attemptsRemaining idx : Nat) (delayMs : Option Nat),
      k < attemptsRemaining →
      (∀ j, j < k → ∃ e, func (idx + j) = Outcome.fail e ∧ transientError e) →
      func (idx + k) = Outcome.ok v →
      (retryRun func attemptsRemaining idx delayMs).1 = Except.ok v ∧
      (retryRun func attemptsRemaining idx delayMs).2.length = k + 1 := by
  intro k
  induction k with
  | zero =>
    intro attemptsRemaining idx delayMs _ _ hsucc
    rw [retryRun]
    simp only [Nat.add_zero] at hsucc
    rw [hsucc]
    exact ⟨rfl, rfl⟩
  | succ k ih =>
    intro attemptsRemaining idx delayMs hlt hfail hsucc
    obtain ⟨e, he, htrans⟩ := hfail 0 (Nat.succ_pos k)
    rw [Nat.add_zero] at he
    have hcode : ¬(e.code.isSome ∧ e.code ≠ some GRPC_UNAVAILABLE) := by
      rcases htrans with h1 | h1 <;> simp [h1]
    rw [retryRun, he]
    dsimp only
    rw [if_neg hcode, if_neg (by omega : ¬attemptsRemaining ≤ 1)]
    have hrec := ih (attemptsRemaining - 1) (idx + 1) (some (jsOr delayMs 100))
      (by omega)
      (by
        intro j hj
        obtain ⟨e1, he1, ht1⟩ := hfail (j + 1) (by omega)
        exact ⟨e1, by rw [show idx + 1 + j = idx + (j + 1) by omega]; exact he1, ht1⟩)
      (by rw [show idx + 1 + k = idx + (k + 1) by omega]; exact hsucc)
    refine ⟨hrec.1, ?_⟩
    simp [hrec.2]

/-- C1: in `_retry`, a failure whose error carries a defined code different
from `GRPC_UNAVAILABLE` (14) rejects immediately with that error after this
single attempt, regardless of the remaining budget; a failure whose error
carries the `UNAVAILABLE` code or no defined code at all is retried (with
budget decremented) while budget remains. -/
theorem retry_error_classification (α : Type) (func : Nat → Outcome α)
    (attemptsRemaining idx : Nat) (delayMs : Option Nat) (e : RpcError)
    (hf : func idx = Outcome.fail e) :
    (∀ c : Int, e.code = some c → c ≠ GRPC_UNAVAILABLE →
        retryRun func attemptsRemaining idx delayMs =
          (Except.error e, [jsOr delayMs 0]))
    ∧ (transientError e → 2 ≤ attemptsRemaining →
        retryRun func attemptsRemaining idx delayMs =
          ((retryRun func (attemptsRemaining - 1) (idx + 1)
              (some (jsOr delayMs 100))).1,
           jsOr delayMs 0 ::
             (retryRun func (attemptsRemaining - 1) (idx + 1)
               (some (jsOr delayMs 100))).2)) := by
  constructor
  · intro c hc hne
    rw [retryRun, hf]
    have : e.code.isSome ∧ e.code ≠ some GRPC_UNAVAILABLE := by
      constructor
      · simp [hc]
      · simp [hc, hne]
    dsimp only
    rw [if_pos this]
  · intro htrans hb
    have hcode : ¬(e.code.isSome ∧ e.code ≠ some GRPC_UNAVAILABLE) := by
      rcases htrans with h1 | h1 <;> simp [h1]
    rw [retryRun, hf]
    dsimp only
    rw [if_neg hcode, if_neg (by omega : ¬attemptsRemaining ≤ 1)]

/-- A function that always fails with a terminal code, and one that always
fails transiently; used to exercise the retry theorems on concrete inputs. -/
def alwaysFailWith (c : Option Int) : Nat → Outcome Nat :=
  fun _ => Outcome.fail ⟨c⟩

/-- Witness for C1 at concrete inputs: a terminal code-3 error stops after
one attempt even with budget 5, and a code-14 error with budget 2 retries. -/
theorem retry_error_classification_witness :
    retryRun (alwaysFailWith (some 3)) 5 0 none = (Except.error ⟨some 3⟩, [0])
    ∧ retryRun (alwaysFailWith (some 14)) 2 0 none =
        ((retryRun (alwaysFailWith (some 14)) 1 1 (some 100)).1,
         0 :: (retryRun (alwaysFailWith (some 14)) 1 1 (some 100)).2) := by
  constructor
  · exact (retry_error_classification Nat (alwaysFailWith (some 3)) 5 0 none
      ⟨some 3⟩ rfl).1 3 rfl (by decide)
  · exact (retry_error_classification Nat (alwaysFailWith (some 14)) 2 0 none
      ⟨some 14⟩ rfl).2 (Or.inr rfl) (by omega)

/-- C7: `request` uses an attempt budget of 5 when `allowRetries` is true and
1 otherwise; an idempotent (retryable) request that fails transiently exactly
`k` times (`k < 5`) and then succeeds performs exactly `k + 1` attempts and
resolves with the success value. -/
theorem request_budget_and_transient_success (α : Type)
    (func : Nat → Outcome α) (k : Nat) (v : α)
    (hk : k < 5)
    (hfail : ∀ j, j < k → ∃ e, func j = Outcome.fail e ∧ transientError e)
    (hsucc : func k = Outcome.ok v) :
    requestAttempts true = 5
    ∧ requestAttempts false = 1
    ∧ (request true func).1 = Except.ok v
    ∧ (request true func).2.length = k + 1 := by
  have h := retryRun_transient_then_ok func v k (requestAttempts true) 0 none
    (by simp [requestAttempts, MAX_REQUEST_RETRIES]; omega)
    (by intro j hj; simpa using hfail j hj)
    (by simpa using hsucc)
  exact ⟨rfl, rfl, h.1, h.2⟩

/-- Two transient (code 14) failures, then success with value 7. -/
def twoTransientThenOk : Nat → Outcome Nat :=
  fun i => if i < 2 then Outcome.fail ⟨some GRPC_UNAVAILABLE⟩ else Outcome.ok 7

/-- Witness for C7: with two transient failures then a success, a retryable
request performs exactly 3 attempts and resolves with 7. -/
theorem request_budget_and_transient_success_witness :
    requestAttempts true = 5
    ∧ requestAttempts false = 1
    ∧ (request true twoTransientThenOk).1 = Except.ok 7
    ∧ (request true twoTransientThenOk).2.length = 2 + 1 :=
  request_budget_and_transient_success Nat twoTransientThenOk 2 7
    (by omega)
    (by
      intro j hj
      exact ⟨⟨some GRPC_UNAVAILABLE⟩, by simp [twoTransientThenOk, hj], Or.inr rfl⟩)
    (by simp [twoTransientThenOk])

/-- Helper: once `_retry` is called with an explicit delay of 100, every
subsequent attempt (including the current one) waits exactly 100. -/
theorem retryRun_delay_const (func : Nat → Outcome α) :
    ∀ (attemptsRemaining idx : Nat),
      ∀ d ∈ (retryRun func attemptsRemaining idx (some 100)).2, d = 100 := by
  intro attemptsRemaining
  induction attemptsRemaining using Nat.strong_induction_on with
  | _ attemptsRemaining ih =>
    intro idx d hd
    rw [retryRun] at hd
    rcases hfunc : func idx with v | e <;> rw [hfunc] at hd <;> dsimp only at hd
    · simpa [jsOr] using hd
    · by_cases hcode : e.code.isSome ∧ e.code ≠ some GRPC_UNAVAILABLE
      · rw [if_pos hcode] at hd
        simpa [jsOr] using hd
      · rw [if_neg hcode] at hd
        by_cases hle : attemptsRemaining ≤ 1
        · rw [if_pos hle] at hd
          simpa [jsOr] using hd
        · rw [if_neg hle] at hd
          simp only [List.mem_cons] at hd
          rcases hd with rfl | hd
          · simp [jsOr]
          · exact ih (attemptsRemaining - 1) (by omega) (idx + 1) d
              (by simpa [jsOr] using hd)

/-- C8: for a retried executor call (which invokes `_retry` with no initial
delay), the very first attempt runs with zero delay, and every subsequent
attempt waits the same fixed delay of 100 ms — the delay schedule is constant,
not exponential. -/
theorem retry_delay_schedule (α : Type) (func : Nat → Outcome α)
    (allowRetries : Bool) :
    (request allowRetries func).2.head? = some 0
    ∧ ∀ d ∈ (request allowRetries func).2.tail, d = 100 := by
  rw [request, retryRun]
  rcases hfunc : func 0 with v | e <;> dsimp only
  · simp [jsOr]
  · by_cases hcode : e.code.isSome ∧ e.code ≠ some GRPC_UNAVAILABLE
    · rw [if_pos hcode]
      simp [jsOr]
    · rw [if_neg hcode]
      by_cases hle : requestAttempts allowRetries ≤ 1
      · rw [if_pos hle]
        simp [jsOr]
      · rw [if_neg hle]
        refine ⟨by simp [jsOr], ?_⟩
        intro d hd
        simp only [List.tail_cons] at hd
        exact retryRun_delay_const func (requestAttempts allowRetries - 1) 1 d
          (by simpa [jsOr] using hd)

/-- Witness for C8: on the concrete three-attempt run, the delay before a
retry attempt drawn from the tail of the schedule is 100. -/
theorem retry_delay_schedule_witness :
    (request true twoTransientThenOk).2.head? = some 0
    ∧ (100 : Nat) = 100 := by
  have hlist : (request true twoTransientThenOk).2 = [0, 100, 100] := by
    simp [request, requestAttempts, MAX_REQUEST_RETRIES, retryRun,
      twoTransientThenOk, jsOr, GRPC_UNAVAILABLE]
  exact ⟨(retry_delay_schedule Nat twoTransientThenOk true).1,
    (retry_delay_schedule Nat twoTransientThenOk true).2 100
      (by rw [hlist]; simp)⟩

/-! ### Transaction coordinator (`runTransaction`, src/index.js:533-590) -/

/-- Outcome of the caller-supplied `updateFunction` on a given attempt: it may
fail to return a `Promise` at all (src/index.js:559-562), return a rejected
promise, or return a resolved one. -/
inductive UserFnOutcome (ε α : Type) where
  | notAPromise
  | rejected (e : ε)
  | resolved (v : α)

/-- Environment describing, per attempt index, the outcome of the `begin`,
`updateFunction`, `rollback` and `commit` promises, plus the error object
constructed for a non-Promise return value. -/
structure TxEnv (ε α : Type) where
  beginResult : Nat → Except ε Unit
  userFn : Nat → UserFnOutcome ε α
  rollbackResult : Nat → Except ε Unit
  commitResult : Nat → Except ε Unit
  badReturnError : ε

/-- Observable trace of one `runTransaction` call: the settled result, the
number of begin/run/commit cycles performed (= recursive `runTransaction`
invocations), the number of `commit` calls issued, and, for each cycle, the
`previousTransaction` (as the attempt index of the failed predecessor, or
`none`) passed to that cycle's `Transaction` constructor. -/
structure TxTrace (ε α : Type) where
  result : Except ε α
  cycles : Nat
  commits : Nat
  previousRefs : List (Option Nat)

/-- The `catch` handler installed on the user function's failed future
(src/index.js:563-571): roll back, then return the original failed result.
Note that when `rollback()` itself rejects, the `.then(() => result)`
continuation is skipped and the rollback error propagates instead. -/
def rollbackAndPropagate (env : TxEnv ε α) (idx : Nat) (prev : Option Nat)
    (orig : ε) : TxTrace ε α :=
  match env.rollbackResult idx with
  | Except.ok _ => ⟨Except.error orig, 1, 0, [prev]⟩
  | Except.error rollbackErr => ⟨Except.error rollbackErr, 1, 0, [prev]⟩

/-- One `runTransaction` invocation and its recursive retries
(src/index.js:533-590).  `attemptsRemaining` is the attempt budget AFTER the
`--attemptsRemaining` decrement at src/index.js:554 (the value the code
compares with `> 0` at src/index.js:575); `idx` is the attempt index and
`prev` the `previousTransaction` reference for this attempt.  On a commit
failure with budget remaining the code recurses with
`maxAttempts: attemptsRemaining` and `previousTransaction: transaction`,
which decrements again on entry. -/
def runTransactionAux (env : TxEnv ε α) :
    Nat → Nat → Option Nat → TxTrace ε α
  | attemptsRemaining, idx, prev =>
    match env.beginResult idx with
    | Except.error e => ⟨Except.error e, 1, 0, [prev]⟩
    | Except.ok _ =>
      match env.userFn idx with
      | UserFnOutcome.notAPromise =>
        rollbackAndPropagate env idx prev env.badReturnError
      | UserFnOutcome.rejected e => rollbackAndPropagate env idx prev e
      | UserFnOutcome.resolved v =>
        match env.commitResult idx with
        | Except.ok _ => ⟨Except.ok v, 1, 1, [prev]⟩
        | Except.error e =>
          match attemptsRemaining with
          | 0 => ⟨Except.error e, 1, 1, [prev]⟩
          | r + 1 =>
            let t := runTransactionAux env r (idx + 1) (some idx)
            ⟨t.result, t.cycles + 1, t.commits + 1, prev :: t.previousRefs⟩

/-- `Firestore.prototype.runTransaction` at the top level: the attempt budget
defaults to 5 and is overridden by a (truthy) `maxAttempts`
(src/index.js:536-546); the first attempt has no previous transaction.  The
budget handed to `runTransactionAux` is the post-decrement value. -/
def runTransaction (env : TxEnv ε α) (maxAttempts : Option Nat) :
    TxTrace ε α :=
  let attempts :=
    match maxAttempts with
    | none => 5
    | some 0 => 5
    | some n => n
  runTransactionAux env (attempts - 1) 0 none

/-- C2: a commit failure with retry budget remaining decrements the budget
and recursively reruns the whole begin/run/commit sequence with a brand-new
transaction referencing the failed one; concretely, with a budget of 5, a
commit that fails on the first two attempts and then succeeds yields exactly
3 cycles (with previous-transaction references `none, some 0, some 1`) and
the third attempt's user-function result, and with a budget of 2 a commit
that always fails yields exactly 2 cycles and the second commit's error. -/
theorem runTransaction_commit_retry (α ε : Type) (v : Nat → α) (ce : Nat → ε)
    (e0 : ε) (rb : Nat → Except ε Unit) :
    runTransaction
        (⟨fun _ => Except.ok (), fun i => UserFnOutcome.resolved (v i), rb,
          fun i => if i < 2 then Except.error (ce i) else Except.ok (), e0⟩ :
          TxEnv ε α)
        (some 5)
      = ⟨Except.ok (v 2), 3, 3, [none, some 0, some 1]⟩
    ∧ runTransaction
        (⟨fun _ => Except.ok (), fun i => UserFnOutcome.resolved (v i), rb,
          fun i => Except.error (ce i), e0⟩ : TxEnv ε α)
        (some 2)
      = ⟨Except.error (ce 1), 2, 2, [none, some 0]⟩
    ∧ (∀ (env : TxEnv ε α) (r idx : Nat) (prev : Option Nat) (w : α) (e : ε),
        env.beginResult idx = Except.ok () →
        env.userFn idx = UserFnOutcome.resolved w →
        env.commitResult idx = Except.error e →
        runTransactionAux env (r + 1) idx prev =
          ⟨(runTransactionAux env r (idx + 1) (some idx)).result,
           (runTransactionAux env r (idx + 1) (some idx)).cycles + 1,
           (runTransactionAux env r (idx + 1) (some idx)).commits + 1,
           prev :: (runTransactionAux env r (idx + 1) (some idx)).previousRefs⟩) := by
  refine ⟨?_, ?_, ?_⟩
  · show runTransactionAux _ 4 0 none = _
    simp [runTransactionAux]
  · show runTransactionAux _ 1 0 none = _
    simp [runTransactionAux]
  · intro env r idx prev w e hb hu hc
    rw [runTransactionAux.eq_def]
    dsimp only
    rw [hb, hu, hc]

/-- A transaction environment whose user function always succeeds but whose
commit always fails; exercises the retry conjunct of C2 concretely. -/
def envCommitAlwaysFails : TxEnv Nat Nat :=
  ⟨fun _ => Except.ok (), fun i => UserFnOutcome.resolved i,
   fun _ => Except.ok (), fun i => Except.error (100 + i), 0⟩

/-- Witness for C2: the general retry step applied at a concrete environment
and attempt. -/
theorem runTransaction_commit_retry_witness :
    runTransactionAux envCommitAlwaysFails 1 0 none =
      ⟨(runTransactionAux envCommitAlwaysFails 0 1 (some 0)).result,
       (runTransactionAux envCommitAlwaysFails 0 1 (some 0)).cycles + 1,
       (runTransactionAux envCommitAlwaysFails 0 1 (some 0)).commits + 1,
       none :: (runTransactionAux envCommitAlwaysFails 0 1 (some 0)).previousRefs⟩ :=
  (runTransaction_commit_retry Nat Nat (fun i => i) (fun i => 100 + i) 0
      (fun _ => Except.ok ())).2.2
    envCommitAlwaysFails 0 0 none 0 100 rfl rfl rfl

/-- The environment of the C6 counterexample: the user function's future
fails with error `1` while the rollback itself fails with error `2`. -/
def envUserFnAndRollbackFail : TxEnv Nat Nat :=
  ⟨fun _ => Except.ok (), fun _ => UserFnOutcome.rejected 1,
   fun _ => Except.error 2, fun _ => Except.ok (), 0⟩

/-- C6 counterexample: with the user function failing with error `1` and the
rollback failing with error `2`, `runTransaction` rejects with the rollback
error `2` instead of the original error `1` — the rollback failure IS
surfaced in place of the original error, contradicting the claim. -/
theorem runTransaction_rollback_error_replaces_original :
    (runTransaction envUserFnAndRollbackFail (some 5)).result = Except.error 2
    ∧ (Except.error 2 : Except Nat Nat) ≠ Except.error 1 := by
  constructor
  · show (runTransactionAux _ 4 0 none).result = _
    simp [runTransactionAux, envUserFnAndRollbackFail, rollbackAndPropagate]
  · simp

/-- C6 (amended): when the caller-supplied function returns a failing future,
`runTransaction` rolls the transaction back and performs no commit and no
retry (a single cycle, zero commits); if the rollback succeeds the original
failure is propagated unchanged, but if the rollback itself fails the
rollback's error is surfaced in place of the original error. -/
theorem runTransaction_userfn_failure (ε α : Type) (env : TxEnv ε α)
    (maxAttempts : Option Nat) (e : ε)
    (hb : env.beginResult 0 = Except.ok ())
    (hu : env.userFn 0 = UserFnOutcome.rejected e) :
    (env.rollbackResult 0 = Except.ok () →
        runTransaction env maxAttempts = ⟨Except.error e, 1, 0, [none]⟩)
    ∧ ∀ rbErr, env.rollbackResult 0 = Except.error rbErr →
        runTransaction env maxAttempts = ⟨Except.error rbErr, 1, 0, [none]⟩ := by
  have key : ∀ (b : Nat) (prev : Option Nat),
      runTransactionAux env b 0 prev = rollbackAndPropagate env 0 prev e := by
    intro b prev
    rw [runTransactionAux.eq_def]
    dsimp only
    rw [hb, hu]
  constructor
  · intro hrb
    show runTransactionAux env _ 0 none = _
    rw [key, rollbackAndPropagate.eq_def, hrb]
  · intro rbErr hrb
    show runTransactionAux env _ 0 none = _
    rw [key, rollbackAndPropagate.eq_def, hrb]

/-- Like the counterexample environment, but with a succeeding rollback. -/
def envUserFnFailsRollbackOk : TxEnv Nat Nat :=
  ⟨fun _ => Except.ok (), fun _ => UserFnOutcome.rejected 1,
   fun _ => Except.ok (), fun _ => Except.ok (), 0⟩

/-- Witness for the amended C6 at concrete environments: both rollback
outcomes. -/
theorem runTransaction_userfn_failure_witness :
    runTransaction envUserFnFailsRollbackOk (some 5) =
      ⟨Except.error 1, 1, 0, [none]⟩
    ∧ runTransaction envUserFnAndRollbackFail (some 5) =
      ⟨Except.error 2, 1, 0, [none]⟩ :=
  ⟨(runTransaction_userfn_failure Nat Nat envUserFnFailsRollbackOk (some 5) 1
      rfl rfl).1 rfl,
   (runTransaction_userfn_failure Nat Nat envUserFnAndRollbackFail (some 5) 1
      rfl rfl).2 2 rfl⟩

/-! ### Batch-get reassembler (`getAll_`, src/index.js:653-730) -/

/-- A document reference as consumed by `getAll_`: `formattedName` is the
fully-qualified resource name added to the request's `documents` set, and
`path` is the relative path used as the key of `retrievedDocuments`. -/
structure DocRef where
  formattedName : String
  path : String
deriving DecidableEq

/-- JavaScript `Set.prototype.add` on a set represented as its insertion-order
list of elements: adding an existing element is a no-op, a new element is
appended. -/
def jsSetAdd (s : List String) (x : String) : List String :=
  if x ∈ s then s else s ++ [x]

/-- The `documents` field of the `batchGetDocuments` request
(src/index.js:654-666): the requested documents' formatted names, collected
into a `Set` (duplicates collapsed, first-insertion order). -/
def requestedDocuments (docRefs : List DocRef) : List String :=
  docRefs.foldl (fun s r => jsSetAdd s r.formattedName) []

/-- One `data` event of the batch-get stream, reduced to what `getAll_`
stores: the constructed snapshot (`doc`, abstract) keyed by its
`document.ref.path`. -/
structure BatchGetResponse (δ : Type) where
  path : String
  doc : δ
deriving DecidableEq

/-- JavaScript `Map.prototype.set` on a map represented as its insertion-order
association list: an existing key is overwritten in place, a new key is
appended. -/
def mapSet (m : List (String × δ)) (k : String) (v : δ) : List (String × δ) :=
  match m with
  | [] => [(k, v)]
  | (k1, v1) :: rest =>
    if k1 = k then (k, v) :: rest else (k1, v1) :: mapSet rest k v

/-- JavaScript `Map.prototype.get` (`none` for an absent key). -/
def mapGet (m : List (String × δ)) (k : String) : Option δ :=
  match m with
  | [] => none
  | (k1, v1) :: rest => if k1 = k then some v1 else mapGet rest k

/-- The `retrievedDocuments` map after all `data` events have been processed
(src/index.js:681-708): each response's document is stored under its path. -/
def buildRetrievedMap (responses : List (BatchGetResponse δ)) :
    List (String × δ) :=
  responses.foldl (fun m r => mapSet m r.path r.doc) []

/-- The reordering loop of the `end` handler (src/index.js:716-725): walk the
requested references in caller order, looking each up by path; the first
missing path rejects the promise (and, the promise being already settled,
the trailing `resolve` of the partially built array is ignored). -/
def buildOrderedDocuments (m : List (String × δ)) :
    List DocRef → Except String (List δ)
  | [] => Except.ok []
  | r :: rs =>
    match mapGet m r.path with
    | none => Except.error r.path
    | some d => (buildOrderedDocuments m rs).map (fun l => d :: l)

/-- What the batch-get stream did, as observed by the handlers installed in
`getAll_`: either an `error` event (which rejects the promise), or a
sequence of `data` events followed by `end`. -/
inductive StreamResult (ε δ : Type) where
  | errored (e : ε)
  | completed (responses : List (BatchGetResponse δ))

/-- How a `getAll_` call fails. -/
inductive GetAllError (ε : Type) where
  | streamError (e : ε)
  | missingDocument (path : String)
deriving DecidableEq

/-- The promise returned by `getAll_` (src/index.js:670-729), given the
requested references and the stream's behavior. -/
def getAllRun (docRefs : List DocRef) :
    StreamResult ε δ → Except (GetAllError ε) (List δ)
  | StreamResult.errored e => Except.error (GetAllError.streamError e)
  | StreamResult.completed responses =>
    match buildOrderedDocuments (buildRetrievedMap responses) docRefs with
    | Except.error p => Except.error (GetAllError.missingDocument p)
    | Except.ok docs => Except.ok docs

/-- Folding `jsSetAdd` preserves nodup and realizes the union of the
accumulator and the mapped names. -/
theorem foldl_jsSetAdd_nodup_mem (docRefs : List DocRef) :
    ∀ acc : List String, acc.Nodup →
      (docRefs.foldl (fun s r => jsSetAdd s r.formattedName) acc).Nodup
      ∧ ∀ x, x ∈ docRefs.foldl (fun s r => jsSetAdd s r.formattedName) acc ↔
          (x ∈ acc ∨ x ∈ docRefs.map DocRef.formattedName) := by
  induction docRefs with
  | nil => intro acc hacc; simpa using hacc
  | cons r rs ih =>
    intro acc hacc
    have hstep : (jsSetAdd acc r.formattedName).Nodup := by
      rw [jsSetAdd]
      split
      · exact hacc
      · next hnotmem =>
        refine hacc.append (List.nodup_singleton _) ?_
        intro a ha hmem
        rw [List.mem_singleton] at hmem
        subst hmem
        exact hnotmem ha
    have hmem : ∀ x, x ∈ jsSetAdd acc r.formattedName ↔
        (x ∈ acc ∨ x = r.formattedName) := by
      intro x
      rw [jsSetAdd]
      split
      · next hin =>
        constructor
        · exact fun h => Or.inl h
        · rintro (h | rfl)
          · exact h
          · exact hin
      · simp
    obtain ⟨hn, hm⟩ := ih (jsSetAdd acc r.formattedName) hstep
    refine ⟨hn, ?_⟩
    intro x
    rw [List.foldl_cons, hm x, hmem x]
    simp only [List.map_cons, List.mem_cons]
    tauto

/-- If every requested path is present in the map, the reordering loop
returns the lookups in caller order. -/
theorem buildOrderedDocuments_all_present (m : List (String × δ)) :
    ∀ docRefs : List DocRef,
      (∀ r ∈ docRefs, (mapGet m r.path).isSome) →
      buildOrderedDocuments m docRefs =
        Except.ok (docRefs.filterMap (fun r => mapGet m r.path)) := by
  intro docRefs
  induction docRefs with
  | nil => intro _; rfl
  | cons r rs ih =>
    intro hall
    have hr := hall r (by simp)
    obtain ⟨d, hd⟩ := Option.isSome_iff_exists.mp hr
    rw [buildOrderedDocuments, hd]
    rw [ih (fun x hx => hall x (by simp [hx]))]
    simp [List.filterMap_cons, hd, Except.map]

/-- If some requested path is absent from the map, the reordering loop
rejects with a missing path. -/
theorem buildOrderedDocuments_missing (m : List (String × δ)) :
    ∀ docRefs : List DocRef,
      (∃ r ∈ docRefs, mapGet m r.path = none) →
      ∃ p, buildOrderedDocuments m docRefs = Except.error p := by
  intro docRefs
  induction docRefs with
  | nil => rintro ⟨r, hr, -⟩; simp at hr
  | cons r rs ih =>
    rintro ⟨r1, hr1, hnone⟩
    rw [buildOrderedDocuments]
    rcases hget : mapGet m r.path with _ | d
    · exact ⟨r.path, rfl⟩
    · rcases List.mem_cons.mp hr1 with rfl | hr1tail
      · rw [hget] at hnone; cases hnone
      · obtain ⟨p, hp⟩ := ih ⟨r1, hr1tail, hnone⟩
        exact ⟨p, by rw [hp]; rfl⟩

/-- Setting a key then reading it back yields the new value. -/
theorem mapGet_mapSet_self (m : List (String × δ)) (k : String) (v : δ) :
    mapGet (mapSet m k v) k = some v := by
  induction m with
  | nil => simp [mapSet, mapGet]
  | cons kv rest ih =>
    obtain ⟨k1, v1⟩ := kv
    rw [mapSet]
    split
    · simp [mapGet]
    · next hne => rw [mapGet, if_neg hne]; exact ih

/-- Setting one key does not affect reads of another. -/
theorem mapGet_mapSet_other (m : List (String × δ)) (k k1 : String) (v : δ)
    (hne : k1 ≠ k) : mapGet (mapSet m k v) k1 = mapGet m k1 := by
  induction m with
  | nil =>
    simp only [mapSet, mapGet]
    rw [if_neg (fun h => hne h.symm)]
  | cons kv rest ih =>
    obtain ⟨k2, v2⟩ := kv
    rw [mapSet]
    split_ifs with h1
    · subst h1
      rw [mapGet, if_neg (fun h => hne h.symm), mapGet,
        if_neg (fun h => hne h.symm)]
    · rw [mapGet, mapGet]
      by_cases h2 : k2 = k1
      · rw [if_pos h2, if_pos h2]
      · rw [if_neg h2, if_neg h2, ih]

/-- Folding `mapSet` over responses none of which carry path `p` does not
change the lookup of `p`. -/
theorem mapGet_foldl_not_mem (xs : List (BatchGetResponse δ)) (p : String) :
    ∀ m : List (String × δ), p ∉ xs.map BatchGetResponse.path →
      mapGet (xs.foldl (fun m r => mapSet m r.path r.doc) m) p = mapGet m p := by
  induction xs with
  | nil => intro m _; rfl
  | cons y ys ih =>
    intro m hnot
    simp only [List.map_cons, List.mem_cons] at hnot
    push_neg at hnot
    rw [List.foldl_cons, ih _ hnot.2,
      mapGet_mapSet_other m y.path p y.doc hnot.1]

/-- Lookup in the map built from responses with pairwise-distinct paths: a
response's own path maps to its document. -/
theorem mapGet_buildRetrievedMap_of_mem (responses : List (BatchGetResponse δ))
    (hnd : (responses.map BatchGetResponse.path).Nodup) :
    ∀ r ∈ responses, mapGet (buildRetrievedMap responses) r.path = some r.doc := by
  suffices h : ∀ (rs : List (BatchGetResponse δ)) (m : List (String × δ)),
      (rs.map BatchGetResponse.path).Nodup →
      ∀ r ∈ rs, mapGet (rs.foldl (fun m r => mapSet m r.path r.doc) m) r.path =
        some r.doc by
    intro r hr
    exact h responses [] hnd r hr
  intro rs
  induction rs with
  | nil => intro m _ r hr; simp at hr
  | cons x xs ih =>
    intro m hnd r hr
    simp only [List.map_cons, List.nodup_cons] at hnd
    rcases List.mem_cons.mp hr with rfl | hrtail
    · rw [List.foldl_cons, mapGet_foldl_not_mem xs r.path _ hnd.1,
        mapGet_mapSet_self]
    · rw [List.foldl_cons]
      exact ih _ hnd.2 r hrtail

/-- Lookup in the built map only returns documents that some response
delivered under that path. -/
theorem mapGet_buildRetrievedMap_some (responses : List (BatchGetResponse δ))
    (p : String) (d : δ)
    (h : mapGet (buildRetrievedMap responses) p = some d) :
    ∃ r ∈ responses, r.path = p ∧ r.doc = d := by
  suffices key : ∀ (rs : List (BatchGetResponse δ)) (m : List (String × δ)),
      mapGet (rs.foldl (fun m r => mapSet m r.path r.doc) m) p = some d →
      (∃ r ∈ rs, r.path = p ∧ r.doc = d) ∨ mapGet m p = some d by
    rcases key responses [] h with hgood | hbad
    · exact hgood
    · simp [mapGet] at hbad
  intro rs
  induction rs with
  | nil => intro m hm; exact Or.inr hm
  | cons x xs ih =>
    intro m hm
    rw [List.foldl_cons] at hm
    rcases ih _ hm with hgood | hbase
    · obtain ⟨r, hr, h1, h2⟩ := hgood
      exact Or.inl ⟨r, by simp [hr], h1, h2⟩
    · by_cases hpx : x.path = p
      · subst hpx
        rw [mapGet_mapSet_self] at hbase
        exact Or.inl ⟨x, by simp, rfl, by injection hbase⟩
      · rw [mapGet_mapSet_other m x.path p x.doc (fun h1 => hpx h1.symm)] at hbase
        exact Or.inr hbase

/-- `buildOrderedDocuments` only consults the map through `mapGet`. -/
theorem buildOrderedDocuments_congr (m1 m2 : List (String × δ))
    (h : ∀ p, mapGet m1 p = mapGet m2 p) :
    ∀ docRefs : List DocRef,
      buildOrderedDocuments m1 docRefs = buildOrderedDocuments m2 docRefs := by
  intro docRefs
  induction docRefs with
  | nil => rfl
  | cons r rs ih =>
    rw [buildOrderedDocuments, buildOrderedDocuments, h r.path, ih]

/-- C3: `getAll_` issues the streaming read keyed by the requested documents'
names with duplicates collapsed (the request's `documents` list is duplicate
free and contains exactly the requested names); at stream end the output list
is rebuilt in the caller's original request order — when every requested path
was delivered the result is the per-reference lookup in request order, and
this result is invariant under permuting the backend's emission order (for
streams that deliver each path once); if any requested path is absent from
the result map at stream end, the whole call rejects with a missing-document
error and no list is delivered. -/
theorem getAll_reassembles_in_request_order (δ ε : Type)
    (docRefs : List DocRef) (responses responses2 : List (BatchGetResponse δ)) :
    ((requestedDocuments docRefs).Nodup
      ∧ ∀ x, x ∈ requestedDocuments docRefs ↔
          x ∈ docRefs.map DocRef.formattedName)
    ∧ ((∀ r ∈ docRefs, (mapGet (buildRetrievedMap responses) r.path).isSome) →
        getAllRun (ε := ε) docRefs (StreamResult.completed responses) =
          Except.ok (docRefs.filterMap
            (fun r => mapGet (buildRetrievedMap responses) r.path)))
    ∧ ((∃ r ∈ docRefs, mapGet (buildRetrievedMap responses) r.path = none) →
        ∃ p, getAllRun (ε := ε) docRefs (StreamResult.completed responses) =
          Except.error (GetAllError.missingDocument p))
    ∧ ((responses.map BatchGetResponse.path).Nodup →
        responses.Perm responses2 →
        getAllRun (ε := ε) docRefs (StreamResult.completed responses) =
          getAllRun (ε := ε) docRefs (StreamResult.completed responses2)) := by
  refine ⟨?_, ?_, ?_, ?_⟩
  · have h := foldl_jsSetAdd_nodup_mem docRefs [] List.nodup_nil
    exact ⟨h.1, fun x => by simpa using h.2 x⟩
  · intro hall
    rw [getAllRun, buildOrderedDocuments_all_present _ _ hall]
  · intro hmissing
    obtain ⟨p, hp⟩ := buildOrderedDocuments_missing _ _ hmissing
    exact ⟨p, by rw [getAllRun, hp]⟩
  · intro hnd hperm
    have hnd2 : (responses2.map BatchGetResponse.path).Nodup :=
      (hperm.map BatchGetResponse.path).nodup_iff.mp hnd
    have hsame : ∀ p, mapGet (buildRetrievedMap responses) p =
        mapGet (buildRetrievedMap responses2) p := by
      intro p
      rcases h1 : mapGet (buildRetrievedMap responses) p with _ | d
      · rcases h2 : mapGet (buildRetrievedMap responses2) p with _ | d2
        · rfl
        · obtain ⟨r, hr, hrp, hrd⟩ := mapGet_buildRetrievedMap_some responses2 p d2 h2
          have hmem : r ∈ responses := hperm.symm.subset hr
          have := mapGet_buildRetrievedMap_of_mem responses hnd r hmem
          rw [hrp, h1] at this
          cases this
      · obtain ⟨r, hr, hrp, hrd⟩ := mapGet_buildRetrievedMap_some responses p d h1
        have hmem : r ∈ responses2 := hperm.subset hr
        have := mapGet_buildRetrievedMap_of_mem responses2 hnd2 r hmem
        rw [hrp] at this
        rw [this, hrd]
    rw [getAllRun, getAllRun, buildOrderedDocuments_congr _ _ hsame]

/-- Concrete references and responses exercising C3: references `[B, A]`
with the backend emitting `A` then `B`. -/
def docRefB : DocRef := ⟨"projects/p/databases/d/documents/col/B", "col/B"⟩

/-- See `docRefB`. -/
def docRefA : DocRef := ⟨"projects/p/databases/d/documents/col/A", "col/A"⟩

/-- Witness for C3: requesting `[B, A]` while the backend emits `A` then `B`
yields `[docB, docA]` in caller order; requesting `[A, B]` with `B` never
delivered rejects with a missing-document error; and swapping the backend
emission order leaves the result unchanged. -/
theorem getAll_reassembles_in_request_order_witness :
    getAllRun (ε := Nat) [docRefB, docRefA]
        (StreamResult.completed [⟨"col/A", 1⟩, ⟨"col/B", 2⟩]) =
      Except.ok [2, 1]
    ∧ (∃ p, getAllRun (ε := Nat) [docRefA, docRefB]
        (StreamResult.completed [⟨"col/A", 1⟩]) =
          Except.error (GetAllError.missingDocument p))
    ∧ getAllRun (ε := Nat) [docRefB, docRefA]
        (StreamResult.completed [⟨"col/A", 1⟩, ⟨"col/B", 2⟩]) =
      getAllRun (ε := Nat) [docRefB, docRefA]
        (StreamResult.completed [⟨"col/B", 2⟩, ⟨"col/A", 1⟩]) := by
  refine ⟨?_, ?_, ?_⟩
  · have h := (getAll_reassembles_in_request_order Nat Nat [docRefB, docRefA]
      [⟨"col/A", 1⟩, ⟨"col/B", 2⟩] []).2.1 (by decide)
    rw [h]
    rfl
  · exact (getAll_reassembles_in_request_order Nat Nat [docRefA, docRefB]
      [⟨"col/A", 1⟩] []).2.2.1 ⟨docRefB, by decide, by decide⟩
  · exact (getAll_reassembles_in_request_order Nat Nat [docRefB, docRefA]
      [⟨"col/A", 1⟩, ⟨"col/B", 2⟩] [⟨"col/B", 2⟩, ⟨"col/A", 1⟩]).2.2.2
      (by decide) (by decide)

/-! ### Stream initializer (`_initializeStream`, src/index.js:955-1049)

The handlers installed on the result stream are modelled as a state machine
processed over the trace of transport events.  `readable`, `end` and `error`
are the stream events the code listens to; `writeAck` is the completion
callback of the initial `resultStream.write` issued for write-capable
streams.  JavaScript's run-to-completion semantics makes each handler
atomic, and the `setTimeout(.., 0)` forwarding of a buffered `end` fires
after the promise continuation that attaches the consumer's listeners and
before the next transport event, so it is folded into the releasing step.

Consumer-visible signals (`visibleEnds`, `visibleErrors`) are the events an
API consumer — whose listeners are attached right after the future resolves
— observes on the stream: raw transport events arriving after resolution,
plus the re-emissions performed by `releaseStream`. -/

/-- A transport event observed by the handlers of `_initializeStream`. -/
inductive StreamEvent (ε : Type) where
  | readable
  | endEvt
  | errEvt (e : ε)
  | writeAck
deriving DecidableEq

deriving instance DecidableEq for Except

/-- The mutable state of one `_initializeStream` call: the three closure
variables (`errorReceived`, `streamReleased`, `endCalled`,
src/index.js:956-969), the settlement of the returned promise (`some
(Except.ok ())` = resolved with the stream, `some (Except.error e)` =
rejected), and instrumentation counting release events, `end` emissions and
consumer-visible signals. -/
structure InitState (ε : Type) where
  errorReceived : Option ε
  streamReleased : Bool
  endCalled : Bool
  settled : Option (Except ε Unit)
  releaseCount : Nat
  emittedEnds : Nat
  visibleEnds : Nat
  emittedErrors : List ε
  visibleErrors : List ε
deriving DecidableEq

/-- The state before any event is processed. -/
def initState : InitState ε :=
  ⟨none, false, false, none, 0, 0, 0, [], []⟩

/-- Whether the future has resolved with the stream (so a consumer is
attached). -/
def isResolved (s : InitState ε) : Bool :=
  match s.settled with
  | some (Except.ok _) => true
  | _ => false

/-- The `releaseStream` closure (src/index.js:972-1003): re-emit a buffered
error if there is one (the synchronous re-entry of the `error` handler
re-buffers it before the `errorReceived = null` assignment clears it);
otherwise, on the first call, mark the stream released, resolve the promise,
and schedule the timeout that forwards a buffered `end` — which fires after
the consumer attached and before the next transport event. -/
def releaseStream (s : InitState ε) : InitState ε :=
  match s.errorReceived with
  | some e =>
    { s with
      errorReceived := none,
      emittedErrors := s.emittedErrors ++ [e],
      visibleErrors :=
        if isResolved s then s.visibleErrors ++ [e] else s.visibleErrors }
  | none =>
    if s.streamReleased then s
    else
      { s with
        streamReleased := true,
        settled := some (Except.ok ()),
        releaseCount := s.releaseCount + 1,
        emittedEnds := s.emittedEnds + (if s.endCalled then 1 else 0),
        visibleEnds := s.visibleEnds + (if s.endCalled then 1 else 0) }

/-- Processing of one transport event by the installed handlers
(src/index.js:1009-1047): `readable` calls `releaseStream`; `end` records
`endCalled` and calls `releaseStream` (the raw event also reaching an
already-attached consumer); `error` rejects the future when the stream is
not yet released and buffers the error otherwise (again raw-visible to an
attached consumer); the write-completion callback calls `releaseStream`. -/
def stepEvent (s : InitState ε) : StreamEvent ε → InitState ε
  | StreamEvent.readable => releaseStream s
  | StreamEvent.endEvt =>
    releaseStream
      { s with
        endCalled := true,
        visibleEnds := s.visibleEnds + (if isResolved s then 1 else 0) }
  | StreamEvent.errEvt e =>
    if s.streamReleased then
      { s with
        errorReceived := some e,
        visibleErrors :=
          if isResolved s then s.visibleErrors ++ [e] else s.visibleErrors }
    else
      { s with streamReleased := true, settled := some (Except.error e) }
  | StreamEvent.writeAck => releaseStream s

/-- The state after `_initializeStream` has processed a trace of transport
events. -/
def runInit (events : List (StreamEvent ε)) : InitState ε :=
  events.foldl stepEvent initState

/-- Whether an event is the `end` event / an `error` event. -/
def isEndEvt : StreamEvent ε → Bool
  | StreamEvent.endEvt => true
  | _ => false

/-- See `isEndEvt`. -/
def isErrEvt : StreamEvent ε → Bool
  | StreamEvent.errEvt _ => true
  | _ => false

/-- Whether any `error` event in the trace is its last event. -/
def errIsLast : List (StreamEvent ε) → Bool
  | [] => true
  | StreamEvent.errEvt _ :: rest => rest.isEmpty
  | StreamEvent.readable :: rest => errIsLast rest
  | StreamEvent.endEvt :: rest => errIsLast rest
  | StreamEvent.writeAck :: rest => errIsLast rest

/-- A realistic transport trace: the stream signals `end` at most once, and
once it signals an error it signals nothing further. -/
def wellFormedTrace (events : List (StreamEvent ε)) : Prop :=
  events.countP isEndEvt ≤ 1 ∧ errIsLast events = true

/-- `streamReleased` is monotone: no handler ever clears it. -/
theorem stepEvent_released_mono (s : InitState ε) (ev : StreamEvent ε)
    (h : s.streamReleased = true) : (stepEvent s ev).streamReleased = true := by
  cases ev <;> simp only [stepEvent, releaseStream]
  · rcases s.errorReceived with _ | e
    · simp [h]
    · simp [h]
  · rcases s.errorReceived with _ | e
    · simp [h]
    · simp [h]
  · simp [h]
  · rcases s.errorReceived with _ | e
    · simp [h]
    · simp [h]

/-- From a pending state, every event either releases or rejects, so
`streamReleased` becomes true. -/
theorem stepEvent_from_initState (ev : StreamEvent ε) :
    (stepEvent (initState (ε := ε)) ev).streamReleased = true := by
  cases ev <;> simp [stepEvent, releaseStream, initState, isResolved]

/-- `streamReleased` is monotone over a whole trace. -/
theorem foldl_released_mono (events : List (StreamEvent ε)) :
    ∀ s : InitState ε, s.streamReleased = true →
      (events.foldl stepEvent s).streamReleased = true := by
  induction events with
  | nil => intro s h; exact h
  | cons ev rest ih =>
    intro s h
    rw [List.foldl_cons]
    exact ih _ (stepEvent_released_mono s ev h)

/-- The only state of a run in which the stream is still pending is the
initial one: every event releases or rejects, and release is permanent. -/
theorem runInit_pending_iff_nil (events : List (StreamEvent ε))
    (h : (runInit events).streamReleased = false) : events = [] := by
  cases events with
  | nil => rfl
  | cons ev rest =>
    rw [runInit, List.foldl_cons] at h
    rw [foldl_released_mono rest _ (stepEvent_from_initState ev)] at h
    cases h

/-- Once the stream is released (or the future rejected), no later event
changes the settlement, the release count, or the artificial end count. -/
theorem stepEvent_frozen (s : InitState ε) (ev : StreamEvent ε)
    (h : s.streamReleased = true) :
    (stepEvent s ev).settled = s.settled
    ∧ (stepEvent s ev).releaseCount = s.releaseCount
    ∧ (stepEvent s ev).emittedEnds = s.emittedEnds := by
  rcases hbuf : s.errorReceived with _ | e1 <;>
    cases ev <;> simp [stepEvent, releaseStream, hbuf, h]

/-- `stepEvent_frozen` over a whole trace. -/
theorem foldl_frozen (events : List (StreamEvent ε)) :
    ∀ s : InitState ε, s.streamReleased = true →
      (events.foldl stepEvent s).settled = s.settled
      ∧ (events.foldl stepEvent s).releaseCount = s.releaseCount
      ∧ (events.foldl stepEvent s).emittedEnds = s.emittedEnds := by
  induction events with
  | nil => intro s _; exact ⟨rfl, rfl, rfl⟩
  | cons ev rest ih =>
    intro s h
    rw [List.foldl_cons]
    obtain ⟨h1, h2, h3⟩ := ih (stepEvent s ev) (stepEvent_released_mono s ev h)
    obtain ⟨g1, g2, g3⟩ := stepEvent_frozen s ev h
    exact ⟨h1.trans g1, h2.trans g2, h3.trans g3⟩

/-- After release, only a (raw) `end` event can change the consumer-visible
end count. -/
theorem stepEvent_visibleEnds_frozen (s : InitState ε) (ev : StreamEvent ε)
    (h : s.streamReleased = true) (hev : isEndEvt ev = false) :
    (stepEvent s ev).visibleEnds = s.visibleEnds := by
  rcases hbuf : s.errorReceived with _ | e1 <;>
    cases ev <;> simp_all [stepEvent, releaseStream, isEndEvt]

/-- `stepEvent_visibleEnds_frozen` over a trace without `end` events. -/
theorem foldl_visibleEnds_frozen (events : List (StreamEvent ε)) :
    ∀ s : InitState ε, s.streamReleased = true →
      (∀ ev ∈ events, isEndEvt ev = false) →
      (events.foldl stepEvent s).visibleEnds = s.visibleEnds := by
  induction events with
  | nil => intro s _ _; rfl
  | cons ev rest ih =>
    intro s h hno
    rw [List.foldl_cons]
    rw [ih (stepEvent s ev) (stepEvent_released_mono s ev h)
      (fun x hx => hno x (by simp [hx]))]
    exact stepEvent_visibleEnds_frozen s ev h (hno ev (by simp))

/-- `releaseStream` with an empty error buffer leaves the buffer empty and
emits no error. -/
theorem releaseStream_no_buffer (s : InitState ε)
    (hbuf : s.errorReceived = none) :
    (releaseStream s).errorReceived = none
    ∧ (releaseStream s).visibleErrors = s.visibleErrors := by
  rw [releaseStream.eq_def, hbuf]
  dsimp only
  split
  · exact ⟨hbuf, rfl⟩
  · exact ⟨rfl, rfl⟩

/-- A non-`error` event neither buffers an error nor emits one to the
consumer when no error is currently buffered. -/
theorem stepEvent_no_err (s : InitState ε) (ev : StreamEvent ε)
    (hev : isErrEvt ev = false) (hbuf : s.errorReceived = none) :
    (stepEvent s ev).errorReceived = none
    ∧ (stepEvent s ev).visibleErrors = s.visibleErrors := by
  cases ev with
  | errEvt e1 => simp [isErrEvt] at hev
  | readable => exact releaseStream_no_buffer s hbuf
  | writeAck => exact releaseStream_no_buffer s hbuf
  | endEvt => exact releaseStream_no_buffer _ hbuf

/-- `stepEvent_no_err` over an `error`-free trace. -/
theorem foldl_no_err (events : List (StreamEvent ε)) :
    ∀ s : InitState ε, (∀ ev ∈ events, isErrEvt ev = false) →
      s.errorReceived = none →
      (events.foldl stepEvent s).errorReceived = none
      ∧ (events.foldl stepEvent s).visibleErrors = s.visibleErrors := by
  induction events with
  | nil => intro s _ hbuf; exact ⟨hbuf, rfl⟩
  | cons ev rest ih =>
    intro s hno hbuf
    rw [List.foldl_cons]
    obtain ⟨g1, g2⟩ := stepEvent_no_err s ev (hno ev (by simp)) hbuf
    obtain ⟨h1, h2⟩ := ih (stepEvent s ev) (fun x hx => hno x (by simp [hx])) g1
    exact ⟨h1, h2.trans g2⟩

/-- In a trace whose final event is an `error`, no earlier event is an
`error`. -/
theorem errIsLast_no_err_before (events : List (StreamEvent ε)) (e : ε)
    (h : errIsLast (events ++ [StreamEvent.errEvt e]) = true) :
    ∀ ev ∈ events, isErrEvt ev = false := by
  induction events with
  | nil => intro ev hev; cases hev
  | cons x xs ih =>
    intro ev hev
    rw [List.cons_append] at h
    cases x with
    | errEvt e1 => simp [errIsLast] at h
    | readable =>
      rw [errIsLast] at h
      rcases List.mem_cons.mp hev with rfl | htail
      · rfl
      · exact ih h ev htail
    | endEvt =>
      rw [errIsLast] at h
      rcases List.mem_cons.mp hev with rfl | htail
      · rfl
      · exact ih h ev htail
    | writeAck =>
      rw [errIsLast] at h
      rcases List.mem_cons.mp hev with rfl | htail
      · rfl
      · exact ih h ev htail

/-- C4: if an `error` event is observed while the stream is still pending
(no release has happened yet), the future returned by `_initializeStream`
rejects with exactly that error — whatever happens afterwards — and the
stream is never released to the caller on that path (zero release events). -/
theorem initializeStream_pending_error_rejects (ε : Type)
    (pre post : List (StreamEvent ε)) (e : ε)
    (h : (runInit pre).streamReleased = false) :
    (runInit (pre ++ StreamEvent.errEvt e :: post)).settled =
      some (Except.error e)
    ∧ (runInit (pre ++ StreamEvent.errEvt e :: post)).releaseCount = 0 := by
  have hpre := runInit_pending_iff_nil pre h
  subst hpre
  rw [List.nil_append, runInit, List.foldl_cons]
  have hstep : stepEvent (initState (ε := ε)) (StreamEvent.errEvt e) =
      ⟨none, true, false, some (Except.error e), 0, 0, 0, [], []⟩ := by
    simp [stepEvent, initState]
  rw [hstep]
  obtain ⟨h1, h2, -⟩ := foldl_frozen post
    (⟨none, true, false, some (Except.error e), 0, 0, 0, [], []⟩ : InitState ε)
    rfl
  exact ⟨h1, h2⟩

/-- Witness for C4: a stream that errors as its very first event (before any
data or end signal) rejects with that error and is never released. -/
theorem initializeStream_pending_error_rejects_witness :
    (runInit ([] ++ StreamEvent.errEvt (0 : Nat) :: [])).settled =
      some (Except.error 0)
    ∧ (runInit ([] ++ StreamEvent.errEvt (0 : Nat) :: [])).releaseCount = 0 :=
  initializeStream_pending_error_rejects Nat [] [] 0 (by decide)

/-- C5: (1) the consumer-visible release event fires at most once on any
trace; (2) on a well-formed trace, an `end` signal observed while the stream
is still pending resolves the future and is delivered to the consumer
exactly once (asynchronously, after release completes); (3) on a well-formed
trace, an error observed after the stream was released and handed over is
seen by the consumer exactly once, carrying that error. -/
theorem initializeStream_release_and_replay (ε : Type)
    (events pre1 post1 pre2 : List (StreamEvent ε)) (e : ε) :
    (runInit events).releaseCount ≤ 1
    ∧ (wellFormedTrace (pre1 ++ StreamEvent.endEvt :: post1) →
        (runInit pre1).streamReleased = false →
        (runInit (pre1 ++ StreamEvent.endEvt :: post1)).visibleEnds = 1
        ∧ (runInit (pre1 ++ StreamEvent.endEvt :: post1)).settled =
            some (Except.ok ()))
    ∧ (wellFormedTrace (pre2 ++ [StreamEvent.errEvt e]) →
        isResolved (runInit pre2) = true →
        (runInit (pre2 ++ [StreamEvent.errEvt e])).visibleErrors = [e]) := by
  refine ⟨?_, ?_, ?_⟩
  · cases events with
    | nil => exact Nat.zero_le 1
    | cons ev rest =>
      rw [runInit, List.foldl_cons]
      have hrel : (stepEvent (initState (ε := ε)) ev).streamReleased = true :=
        stepEvent_from_initState ev
      obtain ⟨-, h2, -⟩ := foldl_frozen rest _ hrel
      rw [h2]
      cases ev <;> simp [stepEvent, releaseStream, initState, isResolved]
  · intro hwf hpending
    have hpre := runInit_pending_iff_nil pre1 hpending
    subst hpre
    rw [List.nil_append] at hwf ⊢
    have hstep : stepEvent (initState (ε := ε)) StreamEvent.endEvt =
        ⟨none, true, true, some (Except.ok ()), 1, 1, 1, [], []⟩ := by
      simp [stepEvent, releaseStream, initState, isResolved]
    have hnoend : ∀ ev ∈ post1, isEndEvt ev = false := by
      have hcount := hwf.1
      rw [List.countP_cons] at hcount
      simp only [isEndEvt, if_true] at hcount
      have h0 : post1.countP isEndEvt = 0 := by omega
      intro ev hev
      have hne := List.countP_eq_zero.mp h0 ev hev
      simpa using hne
    rw [runInit, List.foldl_cons, hstep]
    constructor
    · exact foldl_visibleEnds_frozen post1 _ rfl hnoend
    · exact (foldl_frozen post1 _ rfl).1
  · intro hwf hres
    have hrel : (runInit pre2).streamReleased = true := by
      by_contra hn
      have hfalse : (runInit pre2).streamReleased = false :=
        Bool.not_eq_true _ |>.mp hn
      have hpre := runInit_pending_iff_nil pre2 hfalse
      rw [hpre] at hres
      simp [runInit, initState, isResolved] at hres
    have hnoerr : ∀ ev ∈ pre2, isErrEvt ev = false :=
      errIsLast_no_err_before pre2 e hwf.2
    obtain ⟨hbuf, hvis⟩ := foldl_no_err pre2 initState hnoerr rfl
    have hvis2 : (runInit pre2).visibleErrors = [] := hvis
    rw [runInit, List.foldl_append, List.foldl_cons, List.foldl_nil]
    show (stepEvent (runInit pre2) (StreamEvent.errEvt e)).visibleErrors = [e]
    rw [stepEvent, if_pos hrel]
    rw [hres]
    simp [hvis2]

/-- Witness for C5: an `end` as first event is delivered exactly once after
release; an error arriving after a releasing `readable` is seen exactly
once by the consumer. -/
theorem initializeStream_release_and_replay_witness :
    ((runInit ([] ++ StreamEvent.endEvt :: ([] : List (StreamEvent Nat)))).visibleEnds = 1
      ∧ (runInit ([] ++ StreamEvent.endEvt :: ([] : List (StreamEvent Nat)))).settled =
          some (Except.ok ()))
    ∧ (runInit (([StreamEvent.readable] : List (StreamEvent Nat)) ++
        [StreamEvent.errEvt 0])).visibleErrors = [0] :=
  ⟨(initializeStream_release_and_replay Nat [] [] [] [] 0).2.1
      (by constructor <;> decide) (by decide),
   (initializeStream_release_and_replay Nat [] [] [] [StreamEvent.readable] 0).2.2
      (by constructor <;> decide) (by decide)⟩

/-! ### Lazy client-pool initialization (`_runRequest`/`_initClientPool`,
src/index.js:767-837)

`request`, `readStream` and `readWriteStream` all funnel through
`_runRequest`, which checks `this._clientInitialized` and, when it is still
null, synchronously assigns it the promise of `_initClientPool()` before any
suspension point; `_initClientPool` asserts that it is called at most once.
JavaScript's run-to-completion semantics makes the check-and-set atomic, so
a call is modelled as one step on the instance state.  Promises and pools
are identified by a numeric id (the value of the `_initClientPool`
invocation counter when they were created). -/

/-- The instance state relevant to client initialization:
`_clientInitialized` (the memoized init promise, by id), `_clientPool`
(the pool installed when that promise settles, by id), and the number of
`_initClientPool` invocations so far. -/
structure ClientInitState where
  clientInitialized : Option Nat
  clientPool : Option Nat
  initPoolCalls : Nat
deriving DecidableEq

/-- The state of a freshly constructed `Firestore` instance
(src/index.js:247-263). -/
def initialClientState : ClientInitState := ⟨none, none, 0⟩

/-- One call of `request`/`readStream`/`readWriteStream` reaching
`_runRequest` (src/index.js:767-804): if `_clientInitialized` is set, it is
reused; otherwise `_initClientPool()` is invoked (bumping the counter) and
its promise is memoized before any suspension.  Returns the new state and
the id of the initialization promise this call awaits. -/
def runRequestInit (s : ClientInitState) : ClientInitState × Nat :=
  match s.clientInitialized with
  | some p => (s, p)
  | none =>
    (⟨some s.initPoolCalls, some s.initPoolCalls, s.initPoolCalls + 1⟩,
     s.initPoolCalls)

/-- `n` consecutive executor calls on one instance, collecting the promise id
each call awaits. -/
def runRequestCalls : Nat → ClientInitState × List Nat
  | 0 => (initialClientState, [])
  | n + 1 =>
    let prev := runRequestCalls n
    let step := runRequestInit prev.1
    (step.1, prev.2 ++ [step.2])

/-- C9: across any sequence of executor calls on one instance, client pool
initialization is started exactly once — the first call memoizes the
initialization promise and every later call reuses that same promise (and
hence the same pool installed by it). -/
theorem clientPool_initialized_once (n : Nat) :
    (runRequestCalls (n + 1)).1.initPoolCalls = 1
    ∧ (runRequestCalls (n + 1)).1.clientInitialized = some 0
    ∧ (runRequestCalls (n + 1)).1.clientPool = some 0
    ∧ ∀ p ∈ (runRequestCalls (n + 1)).2, p = 0 := by
  induction n with
  | zero =>
    refine ⟨rfl, rfl, rfl, ?_⟩
    intro p hp
    simp [runRequestCalls, runRequestInit, initialClientState] at hp
    exact hp
  | succ n ih =>
    obtain ⟨h1, h2, h3, h4⟩ := ih
    rw [runRequestCalls]
    have hstep : runRequestInit (runRequestCalls (n + 1)).1 =
        ((runRequestCalls (n + 1)).1, 0) := by
      rw [runRequestInit.eq_def, h2]
    rw [hstep]
    refine ⟨h1, h2, h3, ?_⟩
    intro p hp
    rw [List.mem_append] at hp
    rcases hp with hp | hp
    · exact h4 p hp
    · simpa using hp

/-- Witness for C9: after three calls, all of them awaited promise 0. -/
theorem clientPool_initialized_once_witness :
    (runRequestCalls 3).1.initPoolCalls = 1 ∧ (0 : Nat) = 0 :=
  ⟨(clientPool_initialized_once 2).1,
   (clientPool_initialized_once 2).2.2.2 0 (by decide)⟩

/-! ### `settings()` (src/index.js:301-341) -/

/-- The settings object passed to the `Firestore` constructor or
`settings()`, restricted to the fields the code inspects: `projectId` and
`timestampsInSnapshots` (`none` = property absent). -/
structure JsSettings where
  projectId : Option String
  timestampsInSnapshots : Option Bool
deriving DecidableEq

/-- `extend({}, old, new)` (src/index.js:321): a shallow merge in which
properties present on `new` override those of `old`. -/
def extendSettings (old new : JsSettings) : JsSettings :=
  ⟨(new.projectId).orElse (fun _ => old.projectId),
   (new.timestampsInSnapshots).orElse (fun _ => old.timestampsInSnapshots)⟩

/-- The instance configuration touched by `settings()` and
`validateAndApplySettings`. -/
structure FirestoreConfig where
  settingsFrozen : Bool
  clientInitialized : Bool
  initalizationSettings : JsSettings
  referencePathProjectId : String
  timestampsInSnapshotsEnabled : Bool
deriving DecidableEq

/-- The two synchronous failures `settings()` can throw
(src/index.js:307-319). -/
inductive SettingsError where
  | alreadyStarted
  | alreadyCalled
deriving DecidableEq

/-- `validateAndApplySettings` (src/index.js:326-341): record the
`timestampsInSnapshots` flag (double-negated), set the reference path from a
truthy `projectId` (falling back to the `projectId` placeholder), and store
the settings object. -/
def validateAndApplySettings (s : FirestoreConfig) (settings : JsSettings) :
    FirestoreConfig :=
  { s with
    timestampsInSnapshotsEnabled := settings.timestampsInSnapshots.getD false,
    referencePathProjectId :=
      match settings.projectId with
      | some pid =>
        if pid = "" then "\x7b\x7bprojectId\x7d\x7d" else pid
      | none => "\x7b\x7bprojectId\x7d\x7d",
    initalizationSettings := settings }

/-- `Firestore.prototype.settings` (src/index.js:301-324): throw if the
client has already been started, throw if `settings()` was already called,
otherwise merge the new settings over the initialization settings, apply
them, and freeze.  The returned state is the instance state after the call
(unchanged when an error is thrown, since both checks precede any
mutation). -/
def settingsCall (s : FirestoreConfig) (settings : JsSettings) :
    FirestoreConfig × Option SettingsError :=
  if s.clientInitialized then (s, some SettingsError.alreadyStarted)
  else if s.settingsFrozen then (s, some SettingsError.alreadyCalled)
  else
    let merged := extendSettings s.initalizationSettings settings
    let s1 := validateAndApplySettings s merged
    ({ s1 with settingsFrozen := true }, none)

/-- C10: calling `settings()` after client initialization has started throws
and leaves the configuration unchanged; so does a second `settings()` call
(the first call freezes the settings); a successful call applies the merged
settings, freezes them, and makes any further `settings()` call throw with
the configuration unchanged. -/
theorem settings_freeze (s : FirestoreConfig) (x y : JsSettings) :
    (s.clientInitialized = true →
        settingsCall s x = (s, some SettingsError.alreadyStarted))
    ∧ (s.clientInitialized = false → s.settingsFrozen = true →
        settingsCall s x = (s, some SettingsError.alreadyCalled))
    ∧ (s.clientInitialized = false → s.settingsFrozen = false →
        (settingsCall s x).2 = none
        ∧ (settingsCall s x).1.settingsFrozen = true
        ∧ (settingsCall s x).1.initalizationSettings =
            extendSettings s.initalizationSettings x
        ∧ settingsCall (settingsCall s x).1 y =
            ((settingsCall s x).1, some SettingsError.alreadyCalled)) := by
  refine ⟨?_, ?_, ?_⟩
  · intro h
    rw [settingsCall, if_pos h]
  · intro h1 h2
    rw [settingsCall, if_neg (by simp [h1]), if_pos h2]
  · intro h1 h2
    have hcall : settingsCall s x =
        ({ validateAndApplySettings s (extendSettings s.initalizationSettings x)
            with settingsFrozen := true }, none) := by
      rw [settingsCall, if_neg (by simp [h1]), if_neg (by simp [h2])]
    refine ⟨by rw [hcall], by rw [hcall], by rw [hcall]; rfl, ?_⟩
    rw [hcall]
    rw [settingsCall, if_neg (by simp [h1, validateAndApplySettings]),
      if_pos (by simp)]

/-- Witness for C10 at a concrete configuration: a fresh instance accepts
one `settings()` call, freezes, and rejects the second; a started instance
rejects outright. -/
theorem settings_freeze_witness :
    (settingsCall ⟨false, true, ⟨none, none⟩, "", false⟩ ⟨some "p", none⟩ =
      (⟨false, true, ⟨none, none⟩, "", false⟩,
        some SettingsError.alreadyStarted))
    ∧ ((settingsCall ⟨false, false, ⟨none, none⟩, "", false⟩
          ⟨some "p", some true⟩).2 = none
        ∧ (settingsCall ⟨false, false, ⟨none, none⟩, "", false⟩
            ⟨some "p", some true⟩).1.settingsFrozen = true
        ∧ (settingsCall ⟨false, false, ⟨none, none⟩, "", false⟩
            ⟨some "p", some true⟩).1.initalizationSettings =
            extendSettings ⟨none, none⟩ ⟨some "p", some true⟩
        ∧ settingsCall
            (settingsCall ⟨false, false, ⟨none, none⟩, "", false⟩
              ⟨some "p", some true⟩).1 ⟨none, some false⟩ =
            ((settingsCall ⟨false, false, ⟨none, none⟩, "", false⟩
              ⟨some "p", some true⟩).1, some SettingsError.alreadyCalled)) :=
  ⟨(settings_freeze ⟨false, true, ⟨none, none⟩, "", false⟩ ⟨some "p", none⟩
      ⟨none, some false⟩).1 rfl,
   (settings_freeze ⟨false, false, ⟨none, none⟩, "", false⟩ ⟨some "p", some true⟩
      ⟨none, some false⟩).2.2 rfl rfl⟩

end NodeFirestore
